import Mathlib

/-!
Verification development for `mpisppy/utils/sputils.py`.

The Python module is shallowly embedded below.  MPI communicators are
modelled by the list of global ranks in each split group (an
`MPI.Comm.Split(key=rank, color=c)` call groups the ranks sharing the same
color, ordered ascending by the key, which the source always takes to be the
global rank).  Python dictionaries are modelled as association lists (outer
specification dicts) or as functions `String → Option _` (the rank maps built
by `_ScenTree.scen_names_to_ranks`, where only lookups after all updates
matter).  Python exceptions are modelled by the `Except PyError` monad.
Python float averages such as `avg = scen_count / n_proc` followed by
`int(i * avg)` are embedded exactly as IEEE-754 binary64 arithmetic: a
non-negative double is the dyadic rational it denotes, and every division
and multiplication rounds its exact rational result to 53 significant bits
with round-to-nearest, ties-to-even, before `int` truncates; the source
only ever applies `int` to non-negative values.  Timer progress messages
(`tt_timer.toc`) are pure logging and are elided.
-/

namespace Sputils

/-- Python exceptions raised by the embedded code. -/
inductive PyError where
  | runtimeError (msg : String)
  | assertionError
  | attributeError (attr : String)
  | keyError (key : String)
  | typeError
  | zeroDivisionError
  deriving DecidableEq

/-- Python `range(a, b)` over the naturals (empty when `b ≤ a`). -/
def pyRange (a b : Nat) : List Nat := List.range' a (b - a)

/-- Python `enumerate(l)`. -/
def pyEnum (l : List α) : List (Nat × α) := (List.range l.length).zip l

/-- Lookup in an association-list dictionary (`d[k]`, as an `Option`). -/
def dget (d : List (String × α)) (k : String) : Option α :=
  (d.find? (fun p => p.1 == k)).map (fun p => p.2)

/-- Python `k in d` for an association-list dictionary. -/
def dcontains (d : List (String × α)) (k : String) : Bool :=
  d.any (fun p => p.1 == k)

/-- Python `d[k] = v`: replace the value if the key is present (keeping its
position), otherwise append the new key at the end. -/
def dset (d : List (String × α)) (k : String) (v : α) : List (String × α) :=
  if dcontains d k then d.map (fun p => if p.1 == k then (k, v) else p)
  else d ++ [(k, v)]

/-- Python `if k not in d: d[k] = v`. -/
def ensureKey (d : List (String × α)) (k : String) (v : α) : List (String × α) :=
  if dcontains d k then d else d ++ [(k, v)]

/-- A function-style dictionary updated by a list of sequential assignments
`d[key] = value` (later assignments win). -/
def updMap (m : String → Option β) (ps : List (String × β)) : String → Option β :=
  ps.foldl (fun acc p => fun x => if x = p.1 then some p.2 else acc x) m

/-- The everywhere-undefined function-style dictionary. -/
def emptyMap : String → Option β := fun _ => none

/-! ## make_comms -/

/-- Communicator-creating side effects performed by the embedded code; the
only one is an `MPI.Comm.Split` call. -/
inductive Effect where
  | commSplit
  deriving DecidableEq

/-- The group of global ranks produced by `fullcomm.Split(key=rank_global,
color=color(rank_global))` for the member `g`: all ranks of the world sharing
`g`'s color, ordered ascending by global rank (the split key). -/
def splitMembers (worldSize : Nat) (color : Nat → Nat) (g : Nat) : List Nat :=
  (List.range worldSize).filter (fun r => color r == color g)

/-- A derived communicator as seen from one member: its member list and the
member's rank (position) inside the group. -/
structure Comm where
  members : List Nat
  rankOf : Nat
  deriving DecidableEq, Inhabited

/-- The communicator handle rank `g` obtains from a split with the given
color function. -/
def commSplit (worldSize : Nat) (color : Nat → Nat) (g : Nat) : Comm :=
  { members := splitMembers worldSize color g
    rankOf := (splitMembers worldSize color g).indexOf g }

/-- Embedding of `make_comms(n_spokes, fullcomm)` as run by global rank `g`
of a world of `worldSize` processes.  Returns the communicator-split effects
performed together with either the configuration error or the
`(intercomm, intracomm)` pair.  `intercomm` groups a hub with its spokes
(color `rank_global // nsp1`); `intracomm` groups the ranks performing the
same role (color `rank_global % nsp1`). -/
def make_comms (n_spokes worldSize g : Nat) :
    List Effect × Except PyError (Comm × Comm) :=
  let nsp1 := n_spokes + 1
  if worldSize % nsp1 ≠ 0 then
    ([], .error (.runtimeError ("Need a multiple of " ++ toString nsp1 ++
      " processes (got " ++ toString worldSize ++ ")")))
  else
    ([Effect.commSplit, Effect.commSplit],
     .ok (commSplit worldSize (fun r => r / nsp1) g,
          commSplit worldSize (fun r => r % nsp1) g))

/-- The number of distinct groups a split with the given color function
creates over the whole world. -/
def splitGroupCount (worldSize : Nat) (color : Nat → Nat) : Nat :=
  ((Finset.range worldSize).image color).card

/-! ## spin_the_wheel -/

/-- Values stored in the nested keyword-argument dictionaries
(`hub_kwargs`, `opt_kwargs`, `spoke_kwargs`): opaque caller-supplied values,
plus the communicator handle written under `"mpicomm"`. -/
inductive IVal where
  | box (id : Nat)
  | comm (members : List Nat)
  deriving DecidableEq

/-- Values stored in the top-level specification dictionaries: opaque
caller-supplied objects (classes and the like) and nested keyword
dictionaries. -/
inductive OVal where
  | obj (id : Nat)
  | kwargs (d : List (String × IVal))
  deriving DecidableEq

/-- A top-level specification dictionary (`hub_dict` or one `spoke_dict`). -/
abbrev Dict := List (String × OVal)

/-- Lifecycle operations invoked on the `SPCommunicator` by
`spin_the_wheel`, in program order. -/
inductive Event where
  | makeWindows
  | setupHub
  | mainCall
  | sendTerminate
  | finalizeCall
  | barrier
  | hubFinalize
  | freeWindows
  deriving DecidableEq

/-- The sequence of lifecycle operations lines 100-122 of the source execute
on a rank whose position in its cylinder (`rank_inter`) is given: every rank
runs `make_windows`, `main`, `finalize`, the full-world `Barrier`,
`hub_finalize` and `free_windows` in that order; the cylinder-position-0 rank
additionally runs `setup_hub` after `make_windows` and `send_terminate`
between `main` and `finalize`. -/
def lifecycle (rank_inter : Nat) : List Event :=
  [Event.makeWindows] ++
  (if rank_inter = 0 then [Event.setupHub] else []) ++
  [Event.mainCall] ++
  (if rank_inter = 0 then [Event.sendTerminate] else []) ++
  [Event.finalizeCall, Event.barrier, Event.hubFinalize, Event.freeWindows]

/-- Lines 42-45: fill missing `hub_kwargs` / `opt_kwargs` with empty dicts. -/
def hubEnsured (hub : Dict) : Dict :=
  ensureKey (ensureKey hub "hub_kwargs" (.kwargs [])) "opt_kwargs" (.kwargs [])

/-- Lines 57-60: fill missing `spoke_kwargs` / `opt_kwargs` with empty
dicts. -/
def spokeEnsured (sd : Dict) : Dict :=
  ensureKey (ensureKey sd "spoke_kwargs" (.kwargs [])) "opt_kwargs" (.kwargs [])

/-- Lines 46-60: check each spoke dict for its required keys and fill in the
optional keyword dictionaries, in list order, stopping at the first error. -/
def validateSpokes : List Dict → Except PyError (List Dict)
  | [] => .ok []
  | sd :: rest =>
    if dcontains sd "spoke_class" = false then
      .error (.runtimeError ("Each spoke_dict must contain a spoke_class key " ++
        "specifying the spoke class to use"))
    else if dcontains sd "opt_class" = false then
      .error (.runtimeError ("Each spoke_dict must contain an opt_class key " ++
        "specifying the SPBase class to use (e.g. PHBase, etc.)"))
    else
      match validateSpokes rest with
      | .error e => .error e
      | .ok rest1 => .ok (spokeEnsured sd :: rest1)

/-- Fetch a nested keyword dictionary (`d[k]` expected to be a dict);
Python raises `KeyError` when absent and `TypeError` when the stored value is
not a mapping. -/
def getKwargs (d : Dict) (k : String) : Except PyError (List (String × IVal)) :=
  match dget d k with
  | some (.kwargs kd) => .ok kd
  | some (.obj _) => .error .typeError
  | none => .error (.keyError k)

/-- The argument vector with which the rank's `SPCommunicator` (hub or spoke
class) is constructed: the class selector, its keyword options, and — for the
hub only — the full spoke-specification list (line 95 vs line 98). -/
structure SPArgs where
  spClass : Option OVal
  spKwargs : Option OVal
  spokeList : Option (List Dict)
  deriving DecidableEq, Inhabited

/-- The argument vector with which the optimization object is constructed
(line 90): its class selector and the keyword dictionary, which by then holds
`"mpicomm"`. -/
structure OptArgs where
  optClass : Option OVal
  kwargs : List (String × IVal)
  deriving DecidableEq, Inhabited

/-- Everything observable about one rank's successful `spin_the_wheel` run:
the rank's cylinder position, the construction argument vectors, the returned
`opt_dict`, the caller's dictionaries after the call's in-place mutations,
and the lifecycle trace. -/
structure SpinOutcome where
  rankInter : Nat
  spArgs : SPArgs
  optArgs : OptArgs
  retOptDict : Dict
  hubDictFinal : Dict
  spokeDictsFinal : List Dict
  trace : List Event
  deriving DecidableEq, Inhabited

/-- The outcome constructed by a hub rank (cylinder position 0), lines
74-79, 89-96, 100-124: the `SPCommunicator` is built from `hub_class`,
`hub_kwargs` and the full spoke list; the hub's `opt_kwargs` dictionary is
mutated in place with `"mpicomm"` before the optimization object is built;
`opt_dict = hub_dict` is returned. -/
def hubOutcome (hub1 : Dict) (spokes1 : List Dict) (intracomm : Comm)
    (kw : List (String × IVal)) : SpinOutcome :=
  let kw2 := dset kw "mpicomm" (.comm intracomm.members)
  let hub2 := dset hub1 "opt_kwargs" (.kwargs kw2)
  { rankInter := 0
    spArgs := { spClass := dget hub1 "hub_class"
                spKwargs := dget hub1 "hub_kwargs"
                spokeList := some spokes1 }
    optArgs := { optClass := dget hub1 "opt_class", kwargs := kw2 }
    retOptDict := hub2
    hubDictFinal := hub2
    spokeDictsFinal := spokes1
    trace := lifecycle 0 }

/-- The outcome constructed by a spoke rank (cylinder position
`rank_inter > 0`), lines 80-90, 97-98, 100-124: the `SPCommunicator` is built
from `list_of_spoke_dict[rank_inter-1]` without the spoke list; that spoke
dict's `opt_kwargs` is mutated in place with `"mpicomm"`;
`opt_dict = spoke_dict` is returned. -/
def spokeOutcome (hub1 : Dict) (spokes1 : List Dict) (rank_inter : Nat)
    (intracomm : Comm) (kw : List (String × IVal)) : SpinOutcome :=
  let sd := spokes1.getD (rank_inter - 1) []
  let kw2 := dset kw "mpicomm" (.comm intracomm.members)
  let sd2 := dset sd "opt_kwargs" (.kwargs kw2)
  { rankInter := rank_inter
    spArgs := { spClass := dget sd "spoke_class"
                spKwargs := dget sd "spoke_kwargs"
                spokeList := none }
    optArgs := { optClass := dget sd "opt_class", kwargs := kw2 }
    retOptDict := sd2
    hubDictFinal := hub1
    spokeDictsFinal := spokes1.set (rank_inter - 1) sd2
    trace := lifecycle rank_inter }

/-- Lines 74-124: role dispatch on the cylinder position, in-place keyword
mutation (`opt_kwargs["mpicomm"] = intracomm`), object construction and the
lifecycle, given the already-validated dictionaries and the derived
communicators. -/
def spinDispatch (hub1 : Dict) (spokes1 : List Dict)
    (intercomm intracomm : Comm) : Except PyError SpinOutcome :=
  let rank_inter := intercomm.rankOf
  if rank_inter = 0 then
    match getKwargs hub1 "opt_kwargs" with
    | .error e => .error e
    | .ok kw => .ok (hubOutcome hub1 spokes1 intracomm kw)
  else
    match getKwargs (spokes1.getD (rank_inter - 1) []) "opt_kwargs" with
    | .error e => .error e
    | .ok kw => .ok (spokeOutcome hub1 spokes1 rank_inter intracomm kw)

/-- Embedding of `spin_the_wheel(hub_dict, list_of_spoke_dict)` as run by
global rank `g` of a world of `worldSize` processes: key validation and
keyword defaulting (lines 32-60), communicator derivation (line 68), role
dispatch, construction, lifecycle and return (lines 74-124).  The first
component records the communicator-split effects actually performed. -/
def spin_the_wheel (hub : Dict) (spokes : List Dict) (worldSize g : Nat) :
    List Effect × Except PyError SpinOutcome :=
  if dcontains hub "hub_class" = false then
    ([], .error (.runtimeError ("The hub_dict must contain a hub_class key " ++
      "specifying the hub class to use")))
  else if dcontains hub "opt_class" = false then
    ([], .error (.runtimeError ("The hub_dict must contain an opt_class key " ++
      "specifying the SPBase class to use (e.g. PHBase, etc.)")))
  else
    let hub1 := hubEnsured hub
    match validateSpokes spokes with
    | .error e => ([], .error e)
    | .ok spokes1 =>
      match make_comms spokes.length worldSize g with
      | (effs, .error e) => (effs, .error e)
      | (effs, .ok comms) =>
        (effs, spinDispatch hub1 spokes1 comms.1 comms.2)

/-! ## The scenario tree (`_TreeNode`, `_ScenTree`) -/

/-- A `_TreeNode`: inclusive scenario index range, zero-based stage,
path-encoded name, and the ordered child list.  The range endpoints are
Python ints and may be negative (e.g. `scenlast = -1` for an empty range),
hence `Int`. -/
inductive STree : Type where
  | node (scenfirst scenlast : Int) (stage : Nat) (name : String)
      (kids : List STree)

instance : Inhabited STree := ⟨.node 0 0 0 "" []⟩

def STree.scenfirst : STree → Int
  | .node f _ _ _ _ => f

def STree.scenlast : STree → Int
  | .node _ l _ _ _ => l

def STree.stage : STree → Nat
  | .node _ _ s _ _ => s

def STree.name : STree → String
  | .node _ _ _ n _ => n

def STree.kids : STree → List STree
  | .node _ _ _ _ k => k

/-- Embedding of `_TreeNode.__init__` (lines 530-550).  The first argument is
recursion fuel; the Python recursion terminates because the stage strictly
increases, and every call below supplies fuel of at least
`len(BFs) - stage`, which is sufficient.  Note that the child ranges are the
values the source computes: `first = b*numscens // bf` and
`last = ((b+1)*numscens // bf) - 1`, relative offsets that are NOT shifted by
the parent's `scenfirst` (`Int.ediv` is Python floor division for the
positive divisors used here). -/
def mkNode (BFs : List Nat) : Nat → Nat → Int → Int → String → STree
  | 0, stage, first, last, name => .node first last stage name []
  | fuel + 1, stage, first, last, name =>
    let kids :=
      if stage + 1 < BFs.length then
        (List.range (BFs.getD stage 0)).map (fun (b : Nat) =>
          let numscens : Int := last - first + 1
          let bf : Int := (BFs.getD stage 0 : Int)
          mkNode BFs fuel (stage + 1)
            (Int.ediv ((b : Int) * numscens) bf)
            (Int.ediv (((b : Int) + 1) * numscens) bf - 1)
            (name ++ "_" ++ toString b))
      else []
    .node first last stage name kids

/-- Embedding of `_nonleaves` (lines 565-570): pre-order collection of the
materialized nodes, recursing into children only below the last stage.  The
first two arguments are `len(BFs)` and recursion fuel (the constructed trees
have depth at most `len(BFs)`). -/
def nonleavesAux (lenBFs : Nat) : Nat → STree → List STree
  | 0, nd => [nd]
  | fuel + 1, nd =>
    if nd.stage + 1 < lenBFs then
      nd :: nd.kids.flatMap (nonleavesAux lenBFs fuel)
    else [nd]

/-- A constructed `_ScenTree`. -/
structure ScenTree where
  ScenNames : List String
  NumScens : Nat
  NumStages : Nat
  BFs : List Nat
  rootnode : STree
  nonleaves : List STree
  NonLeafTerminals : List STree

instance : Inhabited ScenTree :=
  ⟨{ ScenNames := [], NumScens := 0, NumStages := 0, BFs := [],
     rootnode := default, nonleaves := [], NonLeafTerminals := [] }⟩

/-- Embedding of `_ScenTree.__init__` (lines 555-572): the two `assert`
statements, root construction over the full index range, and the non-leaf /
terminal node lists.  Terminal non-leaf nodes are exactly the non-leaves at
stage `len(BFs) - 1`. -/
def mkScenTree (BFs : List Nat) (ScenNames : List String) :
    Except PyError ScenTree :=
  if ScenNames.length ≠ BFs.prod then .error .assertionError
  else if ¬ 1 < BFs.length then .error .assertionError
  else
    let root := mkNode BFs BFs.length 0 0 ((ScenNames.length : Int) - 1) "ROOT"
    let nls := nonleavesAux BFs.length BFs.length root
    .ok { ScenNames := ScenNames
          NumScens := ScenNames.length
          NumStages := BFs.length
          BFs := BFs
          rootnode := root
          nonleaves := nls
          NonLeafTerminals := nls.filter (fun nd => nd.stage == BFs.length - 1) }

/-! ## IEEE-754 binary64 arithmetic

The rank assignments below are computed with Python floats:
`avg = scen_count / n_proc` is a correctly rounded double-precision
quotient and `int(i * avg)` truncates the correctly rounded
double-precision product.  These operations are embedded exactly.  The
exponent range of binary64 is never approached by the embedded
computations, so overflow and subnormal rounding do not arise. -/

/-- Round `A / B` (for `B > 0`) to the nearest integer, ties to even. -/
def rnhe (A B : Nat) : Nat :=
  let q := A / B
  let r := A % B
  if 2 * r < B then q
  else if B < 2 * r then q + 1
  else if q % 2 = 0 then q else q + 1

/-- Fuel-driven binary logarithm (`log2F n n` computes the floor of the
base-2 logarithm of `n ≥ 1`; the recursion halves its argument, so `n`
steps of fuel always suffice). -/
def log2F : Nat → Nat → Nat
  | 0, _ => 0
  | fuel + 1, n => if 2 ≤ n then log2F fuel (n / 2) + 1 else 0

/-- The floor of the base-2 logarithm of `n` (0 for `n = 0`). -/
def nlog2 (n : Nat) : Nat := log2F n n

/-- A non-negative dyadic rational `m / 2^k`: the exact value of a
non-negative double (not kept in normal form). -/
structure Dy where
  m : Nat
  k : Nat

/-- The greatest `e` with `2^e ≤ a / b`, for positive naturals `a`, `b`:
the binade exponent of the positive rational `a / b`. -/
def expOf (a b : Nat) : Int :=
  if b ≤ a then (nlog2 (a / b) : Int)
  else
    let d := nlog2 (b / a)
    if b ≤ a * 2 ^ d then -(d : Int) else -((d : Int) + 1)

/-- The dyadic rational `m * 2^e`. -/
def dyadic (m : Nat) (e : Int) : Dy :=
  if 0 ≤ e then ⟨m * 2 ^ e.toNat, 0⟩ else ⟨m, (-e).toNat⟩

/-- The positive rational `a / b` rounded to 53 significant bits with
round-to-nearest, ties-to-even: scale the value into `[2^52, 2^53)` by its
binade exponent and round the scaled value to an integer significand. -/
def pos53 (a b : Nat) : Dy :=
  let e := expOf a b
  dyadic (rnhe (a * 2 ^ (52 - e).toNat) (b * 2 ^ (e - 52).toNat)) (e - 52)

/-- The non-negative rational `a / b` rounded to the nearest double (the
embedded code never rounds a negative value; `b = 0` is guarded at every
call site, where Python would raise `ZeroDivisionError`). -/
def flR (a b : Nat) : Dy :=
  if a = 0 ∨ b = 0 then ⟨0, 0⟩ else pos53 a b

/-- Python `a / b` on non-negative integers: the correctly rounded
double-precision quotient. -/
def fdivN (a b : Nat) : Dy := flR a b

/-- Python `float(n)`: the nearest double to the integer `n` (exact for
`n < 2^53`). -/
def flN (n : Nat) : Dy := flR n 1

/-- The correctly rounded double-precision product. -/
def fmul (x y : Dy) : Dy := flR (x.m * y.m) (2 ^ (x.k + y.k))

/-- Python `i * x` for an integer `i` and a float `x`: `i` is converted to
the nearest double, then the product is rounded. -/
def fmulN (i : Nat) (x : Dy) : Dy := fmul (flN i) x

/-- Python `int(x)` for a non-negative float `x`: truncation toward zero,
which on non-negative values is the floor. -/
def ftrunc (x : Dy) : Nat := x.m / 2 ^ x.k

/-- The strict order on the represented values: `x < y` as floats. -/
def dyLt (x y : Dy) : Bool := x.m * 2 ^ y.k < y.m * 2 ^ x.k

/-! ## scen_names_to_ranks -/

/-- A node's scenario-name → rank dictionary. -/
abbrev IMap := String → Option Nat

/-- The node-name → dictionary mapping returned by
`scen_names_to_ranks`. -/
abbrev RMap := String → Option IMap

/-- Python `range(a, b)` over the integers. -/
def intRange (a b : Int) : List Int :=
  (List.range (b - a).toNat).map (fun (j : Nat) => a + (j : Int))

/-- The node's scenario-name list
`[self.ScenNames[s] for s in range(nd.scenfirst, nd.scenlast+1)]`.  The
indices are non-negative for every tree this function is applied to; an
out-of-range index (which would raise `IndexError` in Python) is given the
default `""`. -/
def ndScenList (ScenNames : List String) (nd : STree) : List String :=
  (intRange nd.scenfirst (nd.scenlast + 1)).map
    (fun s => ScenNames.getD s.toNat "")

/-- `int(i * avg)` for the double `avg = n_proc / Tlen`: the first rank of
terminal node `i` (and lower end of `TermRanks[i]`). -/
def termLo (n_proc Tlen i : Nat) : Nat :=
  ftrunc (fmulN i (fdivN n_proc Tlen))

/-- The scenario-name → rank assignment pairs produced for one terminal node
by the nested loops of lines 611-619, in assignment order: slice `k` of the
node's relative scenario indices (`range(int(k*avg), int((k+1)*avg))` for
the double `avg = ndnumscens / R`) is assigned to rank `lo + k`
(`TermRanks[i][k]`), where `R = len(TermRanks[i])` and
`first = nd.scenfirst`.  The lookup `ndScenList[s]` is modelled by `getD`
with default `""`; an out-of-range `s` (Python `IndexError`) would require
a rounding error of relative size `1 / ndnumscens`, impossible below
`2^52` scenarios. -/
def termPairs (ScenNames : List String) (first ndnum lo R : Nat) :
    List (String × Nat) :=
  let avg := fdivN ndnum R
  (List.range R).flatMap (fun k =>
    (pyRange (ftrunc (fmulN k avg)) (ftrunc (fmulN (k + 1) avg))).map
      (fun s => (ScenNames.getD (first + s) "", lo + k)))

/-- The assignment pairs of terminal node `i` (`nd`), with the node's data
extracted: `ndnumscens = nd.scenlast - nd.scenfirst + 1`, the node's first
rank `int(i * avg)` and rank-range width `len(TermRanks[i])`. -/
def snrTermEntry (ScenNames : List String) (n_proc Tlen i : Nat) (nd : STree) :
    List (String × Nat) :=
  termPairs ScenNames nd.scenfirst.toNat (nd.scenlast - nd.scenfirst + 1).toNat
    (termLo n_proc Tlen i) (termLo n_proc Tlen (i + 1) - termLo n_proc Tlen i)

/-- The `masterslices` entry of terminal node `i`: absolute scenario-index
ranges, one per rank of the node's rank range, modelled by their
`(start, stop)` endpoints. -/
def snrMasterSlice (n_proc Tlen i : Nat) (nd : STree) : List (Int × Int) :=
  let R := termLo n_proc Tlen (i + 1) - termLo n_proc Tlen i
  let ndnum := (nd.scenlast - nd.scenfirst + 1).toNat
  let avg := fdivN ndnum R
  (List.range R).map (fun j =>
    (nd.scenfirst + (ftrunc (fmulN j avg) : Nat),
     nd.scenfirst + (ftrunc (fmulN (j + 1) avg) : Nat)))

/-- The assignment pairs accumulated under `"ROOT"` (lines 607-619): the
terminal nodes' pair lists, concatenated in enumeration order. -/
def snrRootPairs (t : ScenTree) (n_proc : Nat) : List (String × Nat) :=
  (pyEnum t.NonLeafTerminals).flatMap
    (fun p => snrTermEntry t.ScenNames n_proc t.NonLeafTerminals.length p.1 p.2)

/-- The completed `retval["ROOT"]` dictionary. -/
def snrRootIM (t : ScenTree) (n_proc : Nat) : IMap :=
  updMap emptyMap (snrRootPairs t n_proc)

/-- The non-leaf nodes handled by the final loop of lines 621-629: neither
terminal (the terminals are exactly the non-leaves whose stage is
`len(BFs)-1`, so `nd not in TermNodes` is the stage test) nor the root. -/
def snrInternals (t : ScenTree) : List STree :=
  t.nonleaves.filter (fun nd =>
    !(nd.stage == t.BFs.length - 1) && !(nd.name == "ROOT"))

/-- The `(node name, dictionary)` entries written into `retval`, in program
order: `"ROOT"` first (line 606; its final content is the accumulated root
pairs), then one entry per terminal node (lines 607-619), then one entry per
remaining internal node, whose dictionary copies the completed root entries
over the node's scenario list (lines 621-626).  These entries are only
returned when no internal node's list holds a name the root dictionary
lacks — `snrKeyErr` detects that case, in which line 626 raises `KeyError`
instead — so on every returned result the conditional below equals the
copied dictionary. -/
def snrEntries (t : ScenTree) (n_proc : Nat) : List (String × IMap) :=
  ("ROOT", snrRootIM t n_proc) ::
  (pyEnum t.NonLeafTerminals).map (fun p =>
    (p.2.name, updMap emptyMap
      (snrTermEntry t.ScenNames n_proc t.NonLeafTerminals.length p.1 p.2))) ++
  (snrInternals t).map (fun nd =>
    (nd.name, fun s =>
      if s ∈ ndScenList t.ScenNames nd then snrRootIM t n_proc s else none))

/-- The returned `retval` dictionary of dictionaries. -/
def snrRetval (t : ScenTree) (n_proc : Nat) : RMap :=
  updMap emptyMap (snrEntries t n_proc)

/-- The returned `masterslices` list (lines 603, 615). -/
def snrMaster (t : ScenTree) (n_proc : Nat) : List (List (Int × Int)) :=
  (pyEnum t.NonLeafTerminals).map
    (fun p => snrMasterSlice n_proc t.NonLeafTerminals.length p.1 p.2)

/-- The returned `FirstRank` dictionary (lines 588-629): terminal nodes get
`int(i*avg)`, `"ROOT"` gets 0, and internal nodes inherit their first
child's entry. -/
def snrFirstRank (t : ScenTree) (n_proc : Nat) : String → Option Nat :=
  (snrInternals t).foldl
    (fun m nd => fun x =>
      if x = nd.name then m (nd.kids.getD 0 default).name else m x)
    (updMap (updMap emptyMap
        ((pyEnum t.NonLeafTerminals).map
          (fun p => (p.2.name, termLo n_proc t.NonLeafTerminals.length p.1))))
      [("ROOT", 0)])

/-- The first scenario name, if any, on which the internal-node loop of
lines 621-626 would raise a `KeyError`: internal nodes copy their entries
from the completed root dictionary, and a name in an internal node's
scenario list that the root dictionary lacks raises at line 626. -/
def snrKeyErr (t : ScenTree) (n_proc : Nat) : Option String :=
  ((snrInternals t).flatMap (fun nd => ndScenList t.ScenNames nd)).find?
    (fun s => (snrRootIM t n_proc s).isNone)

/-- The `n_proc != 1` branch of `scen_names_to_ranks` (lines 586-631):
ranks are spread over the terminal non-leaf nodes proportionally (by the
double `avg = n_proc / len(TermNodes)`, raising `ZeroDivisionError` when
there are no terminal nodes and `RuntimeError` when `avg < 1`), each
terminal node's scenarios are sliced over its rank range (the per-node
division `ndnumscens / len(TermRanks[i])` raises `ZeroDivisionError` when
some terminal node's rank range is empty), the pairs are recorded under the
terminal's name and under `"ROOT"`, and the remaining internal nodes copy
their entries from the completed root dictionary (raising `KeyError` on a
name the root dictionary lacks). -/
def snrGeneral (t : ScenTree) (n_proc : Nat) :
    Except PyError
      (RMap × Option (List (List (Int × Int))) × Option (String → Option Nat)) :=
  if t.NonLeafTerminals.length = 0 then .error .zeroDivisionError
  else if dyLt (fdivN n_proc t.NonLeafTerminals.length) ⟨1, 0⟩ then
    .error (.runtimeError (toString n_proc ++
      " processors in a cylinder is not enough for " ++
      toString t.NonLeafTerminals.length ++ " terminal non-leaf nodes"))
  else if (List.range t.NonLeafTerminals.length).any (fun i =>
      termLo n_proc t.NonLeafTerminals.length (i + 1) -
        termLo n_proc t.NonLeafTerminals.length i = 0) then
    .error .zeroDivisionError
  else
    match snrKeyErr t n_proc with
    | some s => .error (.keyError s)
    | none =>
      .ok (snrRetval t n_proc, some (snrMaster t n_proc),
           some (snrFirstRank t n_proc))

/-- Embedding of `_ScenTree.scen_names_to_ranks(n_proc, myrank)`
(lines 574-631).  In the `n_proc == 1` branch every non-leaf node receives a
dictionary mapping every scenario name to `myrank` (lines 581-584);
otherwise the general assignment is performed. -/
def scen_names_to_ranks (t : ScenTree) (n_proc myrank : Nat) :
    Except PyError
      (RMap × Option (List (List (Int × Int))) × Option (String → Option Nat)) :=
  if n_proc = 1 then
    .ok (updMap emptyMap (t.nonleaves.map (fun nd =>
          (nd.name, updMap emptyMap (t.ScenNames.map (fun s => (s, myrank)))))),
         none, none)
  else snrGeneral t n_proc

/-! ## scens_to_ranks -/

/-- The generated scenario names `["ID" + str(i) for i in range(scen_count)]`
of line 522. -/
def idNames (scen_count : Nat) : List String :=
  (List.range scen_count).map (fun i => "ID" ++ toString i)

/-- The flat two-stage slices of line 516:
`range(int(i*avg), int((i+1)*avg))` for the double
`avg = scen_count / n_proc`, one slice per rank. -/
def flatSlices (scen_count n_proc : Nat) : List (List Nat) :=
  let avg := fdivN scen_count n_proc
  (List.range n_proc).map (fun i =>
    pyRange (ftrunc (fmulN i avg)) (ftrunc (fmulN (i + 1) avg)))

/-- Embedding of `scens_to_ranks(scen_count, n_proc, rank, BFs)`
(lines 493-525).  With `BFs = None` it returns the flat two-stage slices
`range(int(i*avg), int((i+1)*avg))` for the double
`avg = scen_count / n_proc` (the division raises `ZeroDivisionError` when
`n_proc = 0`, which passes the preceding check).  With `BFs` given, the
source constructs a `_ScenTree` and then calls
`tree.scen_name_to_rank(n_proc, rank)` — a method that does not exist (the
class only defines `scen_names_to_ranks`), so Python raises
`AttributeError` whenever the constructor's assertions pass; this dead call
is embedded as that error. -/
def scens_to_ranks (scen_count n_proc rank : Nat) (BFs : Option (List Nat)) :
    Except PyError (List (List Nat) × Option RMap) :=
  if scen_count < n_proc then
    .error (.runtimeError ("More MPI ranks (" ++ toString n_proc ++
      ") supplied than needed given the number of scenarios (" ++
      toString scen_count ++ ") "))
  else
    match BFs with
    | none =>
      if n_proc = 0 then .error .zeroDivisionError
      else .ok (flatSlices scen_count n_proc, none)
    | some bfs =>
      match mkScenTree bfs (idNames scen_count) with
      | .error e => .error e
      | .ok _tree => .error (.attributeError "scen_name_to_rank")

/-! ## Association-list dictionary lemmas -/

theorem dget_nil (k : String) : dget ([] : List (String × α)) k = none := rfl

theorem dget_cons (p : String × α) (d : List (String × α)) (k : String) :
    dget (p :: d) k = if p.1 = k then some p.2 else dget d k := by
  by_cases h : p.1 = k <;> simp [dget, List.find?_cons, h]

theorem dcontains_eq_isSome (d : List (String × α)) (k : String) :
    dcontains d k = (dget d k).isSome := by
  induction d with
  | nil => rfl
  | cons p rest ih =>
    simp only [dcontains, List.any_cons] at *
    by_cases h : p.1 = k <;> simp [h, dget_cons, ih]

theorem dget_append (d1 d2 : List (String × α)) (k : String) :
    dget (d1 ++ d2) k = (dget d1 k).or (dget d2 k) := by
  simp only [dget, List.find?_append]
  cases List.find? (fun p => p.1 == k) d1 <;> simp

theorem dget_single_self (k : String) (v : α) :
    dget [(k, v)] k = some v := by
  simp [dget, List.find?_cons]

theorem dget_single_ne (k k' : String) (v : α) (h : k' ≠ k) :
    dget [(k, v)] k' = none := by
  have hk : ¬ ((k : String) = k') := fun hh => h hh.symm
  simp [dget, List.find?_cons, hk]

theorem dget_eq_none_of_not_contains (d : List (String × α)) (k : String)
    (h : ¬ dcontains d k = true) : dget d k = none := by
  rw [dcontains_eq_isSome] at h
  exact Option.not_isSome_iff_eq_none.mp (by simpa using h)

theorem dget_dset_self (d : List (String × α)) (k : String) (v : α) :
    dget (dset d k v) k = some v := by
  rw [dset]
  by_cases h : dcontains d k = true
  · rw [if_pos h]
    induction d with
    | nil => simp [dcontains] at h
    | cons p rest ih =>
      by_cases hp : p.1 = k
      · simp [List.map_cons, hp, dget_cons]
      · have hrest : dcontains rest k = true := by
          simpa [dcontains, List.any_cons, hp] using h
        simpa [List.map_cons, hp, dget_cons] using ih hrest
  · rw [if_neg h, dget_append, dget_eq_none_of_not_contains d k h,
      dget_single_self]
    rfl

theorem dget_map_replace (d : List (String × α)) (k k' : String) (v : α)
    (h : k' ≠ k) :
    dget (d.map (fun p => if p.1 == k then (k, v) else p)) k' = dget d k' := by
  induction d with
  | nil => rfl
  | cons p rest ih =>
    simp only [List.map_cons]
    simp only [beq_iff_eq] at ih
    by_cases hp : (p.1 == k) = true
    · have hpk : p.1 = k := by simpa using hp
      have hk : ¬ ((k : String) = k') := fun hh => h hh.symm
      have hp' : ¬ (p.1 = k') := by rw [hpk]; exact hk
      rw [if_pos hp]
      simp [dget_cons, hk, hp', ih]
    · rw [if_neg hp]
      simp [dget_cons, ih]

theorem dget_dset_ne (d : List (String × α)) (k k' : String) (v : α)
    (h : k' ≠ k) : dget (dset d k v) k' = dget d k' := by
  rw [dset]
  by_cases hc : dcontains d k = true
  · rw [if_pos hc]
    exact dget_map_replace d k k' v h
  · rw [if_neg hc, dget_append, dget_single_ne _ _ _ h]
    cases dget d k' <;> rfl

theorem dget_ensureKey_self (d : List (String × α)) (k : String) (v : α) :
    dget (ensureKey d k v) k = some ((dget d k).getD v) := by
  rw [ensureKey]
  by_cases hc : dcontains d k = true
  · rw [if_pos hc]
    have := dcontains_eq_isSome d k
    rw [hc] at this
    obtain ⟨x, hx⟩ := Option.isSome_iff_exists.mp this.symm
    simp [hx]
  · rw [if_neg hc, dget_append, dget_eq_none_of_not_contains d k hc,
      dget_single_self]
    rfl

theorem dget_ensureKey_ne (d : List (String × α)) (k k' : String) (v : α)
    (h : k' ≠ k) : dget (ensureKey d k v) k' = dget d k' := by
  rw [ensureKey]
  by_cases hc : dcontains d k = true
  · rw [if_pos hc]
  · rw [if_neg hc, dget_append, dget_single_ne _ _ _ h]
    cases dget d k' <;> rfl

/-! ## Function-dictionary (`updMap`) lemmas -/

theorem updMap_nil (m : String → Option β) : updMap m [] = m := rfl

theorem updMap_cons (m : String → Option β) (p : String × β)
    (ps : List (String × β)) :
    updMap m (p :: ps) =
      updMap (fun x => if x = p.1 then some p.2 else m x) ps := rfl

theorem updMap_append (m : String → Option β) (ps qs : List (String × β)) :
    updMap m (ps ++ qs) = updMap (updMap m ps) qs := by
  simp [updMap, List.foldl_append]

theorem updMap_apply_of_not_mem (m : String → Option β)
    (ps : List (String × β)) (x : String) (h : x ∉ ps.map Prod.fst) :
    updMap m ps x = m x := by
  induction ps generalizing m with
  | nil => rfl
  | cons p rest ih =>
    simp only [List.map_cons, List.mem_cons, not_or] at h
    rw [updMap_cons, ih _ h.2, if_neg h.1]

theorem updMap_apply_of_mem_nodup (m : String → Option β)
    (ps : List (String × β)) (x : String) (v : β)
    (hnd : (ps.map Prod.fst).Nodup) (hm : (x, v) ∈ ps) :
    updMap m ps x = some v := by
  induction ps generalizing m with
  | nil => cases hm
  | cons p rest ih =>
    simp only [List.map_cons, List.nodup_cons] at hnd
    rcases List.mem_cons.mp hm with hm | hm
    · subst hm
      rw [updMap_cons, updMap_apply_of_not_mem _ _ _ hnd.1]
      simp
    · exact ih _ hnd.2 hm

theorem updMap_isSome_iff (m : String → Option β) (ps : List (String × β))
    (x : String) :
    (updMap m ps x).isSome = true ↔ x ∈ ps.map Prod.fst ∨ (m x).isSome = true := by
  induction ps generalizing m with
  | nil => simp [updMap_nil]
  | cons p rest ih =>
    rw [updMap_cons, ih]
    by_cases hx : x = p.1 <;> simp [hx]

theorem updMap_emptyMap_isSome_iff (ps : List (String × β)) (x : String) :
    (updMap emptyMap ps x).isSome = true ↔ x ∈ ps.map Prod.fst := by
  rw [updMap_isSome_iff]
  simp [emptyMap]

/-! ## Range lemmas -/

theorem mem_pyRange (x a b : Nat) : x ∈ pyRange a b ↔ a ≤ x ∧ x < b := by
  rw [pyRange, List.mem_range']
  constructor
  · rintro ⟨i, hi, rfl⟩
    omega
  · rintro ⟨h1, h2⟩
    exact ⟨x - a, by omega, by omega⟩

theorem pyRange_length (a b : Nat) : (pyRange a b).length = b - a := by
  simp [pyRange]

theorem flatten_chain (A : Nat → Nat) (mono : ∀ i, A i ≤ A (i + 1)) :
    ∀ P, ((List.range P).map (fun i => pyRange (A i) (A (i + 1)))).flatten =
      pyRange (A 0) (A P) := by
  have hmono : Monotone A := monotone_nat_of_le_succ mono
  intro P
  induction P with
  | zero => simp [pyRange]
  | succ n ih =>
    rw [List.range_succ, List.map_append, List.flatten_append, ih]
    have h0n : A 0 ≤ A n := hmono (Nat.zero_le n)
    have hnn : A n ≤ A (n + 1) := mono n
    have := List.range'_append (A 0) (A n - A 0) (A (n + 1) - A n) 1
    rw [show A 0 + 1 * (A n - A 0) = A n by omega] at this
    simp only [pyRange, List.map_cons, List.map_nil, List.flatten_cons,
      List.flatten_nil, List.append_nil]
    rw [this, show A (n + 1) - A n + (A n - A 0) = A (n + 1) - A 0 by omega]

/-! ## Topology lemmas for make_comms -/

theorem mem_splitMembers (w : Nat) (color : Nat → Nat) (g r : Nat) :
    r ∈ splitMembers w color g ↔ r < w ∧ color r = color g := by
  simp [splitMembers, List.mem_filter, List.mem_range]

theorem filter_range_div (k : Nat) (hk : 0 < k) :
    ∀ (m c : Nat), c < m →
      (List.range (m * k)).filter (fun r => r / k == c) =
        List.range' (c * k) k := by
  intro m
  induction m with
  | zero => intro c hc; omega
  | succ n ih =>
    intro c hc
    rw [show (n + 1) * k = n * k + k by ring, List.range_add,
      List.filter_append, List.filter_map]
    by_cases hcn : c = n
    · subst hcn
      have h1 : (List.range (c * k)).filter (fun r => r / k == c) = [] := by
        rw [List.filter_eq_nil_iff]
        intro a ha
        rw [List.mem_range] at ha
        have : a / k < c := (Nat.div_lt_iff_lt_mul hk).mpr ha
        simp only [beq_iff_eq]
        omega
      have h2 : (List.range k).filter ((fun r => r / k == c) ∘ (fun x => c * k + x)) =
          List.range k := by
        rw [List.filter_eq_self]
        intro a ha
        rw [List.mem_range] at ha
        simp only [Function.comp_apply, beq_iff_eq]
        rw [Nat.add_comm, Nat.mul_comm c k, Nat.add_mul_div_left a c hk,
          Nat.div_eq_of_lt ha, Nat.zero_add]
      rw [h1, h2, List.nil_append, List.range'_eq_map_range]
    · have hc' : c < n := by omega
      have h2 : (List.range k).filter ((fun r => r / k == c) ∘ (fun x => n * k + x)) =
          [] := by
        rw [List.filter_eq_nil_iff]
        intro a ha
        rw [List.mem_range] at ha
        simp only [Function.comp_apply, beq_iff_eq]
        rw [Nat.add_comm, Nat.mul_comm n k, Nat.add_mul_div_left a n hk,
          Nat.div_eq_of_lt ha, Nat.zero_add]
        omega
      rw [ih c hc', h2, List.map_nil, List.append_nil]

theorem splitMembers_div_eq (k w g : Nat) (hk : 0 < k) (hw : w % k = 0)
    (hg : g < w) :
    splitMembers w (fun r => r / k) g = List.range' (g / k * k) k := by
  have hdvd : k ∣ w := Nat.dvd_of_mod_eq_zero hw
  have hwk : w / k * k = w := Nat.div_mul_cancel hdvd
  have hc : g / k < w / k := by
    rw [Nat.div_lt_iff_lt_mul hk]
    omega
  have := filter_range_div k hk (w / k) (g / k) hc
  rw [hwk] at this
  simpa [splitMembers] using this

theorem indexOf_range' :
    ∀ (n s g : Nat), s ≤ g → g < s + n →
      (List.range' s n).indexOf g = g - s := by
  intro n
  induction n with
  | zero => intro s g h1 h2; omega
  | succ m ih =>
    intro s g h1 h2
    rw [List.range'_succ, List.indexOf_cons]
    by_cases hg : s = g
    · subst hg
      simp
    · have hbeq : (s == g) = false := by simpa using hg
      rw [hbeq, cond_false, ih (s + 1) g (by omega) (by omega)]
      omega

theorem splitMembers_div_indexOf (k w g : Nat) (hk : 0 < k)
    (hw : w % k = 0) (hg : g < w) :
    (splitMembers w (fun r => r / k) g).indexOf g = g % k := by
  rw [splitMembers_div_eq k w g hk hw hg]
  have hdm := Nat.div_add_mod g k
  have hlt : g % k < k := Nat.mod_lt _ hk
  have hcomm : g / k * k = k * (g / k) := Nat.mul_comm _ _
  rw [indexOf_range' k (g / k * k) g (Nat.div_mul_le_self g k) (by omega)]
  omega

theorem image_mod_range (w k : Nat) (hk : 0 < k) (hw : w % k = 0)
    (h0 : 0 < w) :
    (Finset.range w).image (fun r => r % k) = Finset.range k := by
  have hkw : k ≤ w := Nat.le_of_dvd h0 (Nat.dvd_of_mod_eq_zero hw)
  ext x
  simp only [Finset.mem_image, Finset.mem_range]
  constructor
  · rintro ⟨r, _, rfl⟩
    exact Nat.mod_lt _ hk
  · intro hx
    exact ⟨x, by omega, Nat.mod_eq_of_lt hx⟩

theorem image_div_range (w k : Nat) (hk : 0 < k) (hw : w % k = 0) :
    (Finset.range w).image (fun r => r / k) = Finset.range (w / k) := by
  have hdvd := Nat.dvd_of_mod_eq_zero hw
  have hwk : w / k * k = w := Nat.div_mul_cancel hdvd
  ext x
  simp only [Finset.mem_image, Finset.mem_range]
  constructor
  · rintro ⟨r, hr, rfl⟩
    rw [Nat.div_lt_iff_lt_mul hk]
    omega
  · intro hx
    refine ⟨x * k, ?_, Nat.mul_div_cancel x hk⟩
    calc x * k < (w / k) * k := by
          exact Nat.mul_lt_mul_of_lt_of_le hx (Nat.le_refl k) hk
      _ = w := hwk

/-- The property claimed of the topology split: for every rank its cylinder
group is exactly the `spokeCount + 1` consecutive ranks of its block, ordered
ascending, with the hub (role index `0`) at position `0`; membership in a
cylinder (resp. role) group is determined by the quotient (resp. remainder),
so every rank is in exactly one group of each kind; and the number of
role-groups is `spokeCount + 1` (for a non-empty world), while the number of
cylinder groups is `worldSize / (spokeCount + 1)`. -/
def makeCommsPartitionProp (spokeCount worldSize : Nat) : Prop :=
  (∀ g, g < worldSize →
    splitMembers worldSize (fun r => r / (spokeCount + 1)) g =
      List.range' (g / (spokeCount + 1) * (spokeCount + 1)) (spokeCount + 1) ∧
    (splitMembers worldSize (fun r => r / (spokeCount + 1)) g).length =
      spokeCount + 1 ∧
    List.Pairwise (· < ·)
      (splitMembers worldSize (fun r => r / (spokeCount + 1)) g) ∧
    ∃ h0, (splitMembers worldSize (fun r => r / (spokeCount + 1)) g).head? =
        some h0 ∧ h0 % (spokeCount + 1) = 0) ∧
  (∀ g g', g < worldSize → g' < worldSize →
    (g ∈ splitMembers worldSize (fun r => r / (spokeCount + 1)) g' ↔
      g / (spokeCount + 1) = g' / (spokeCount + 1)) ∧
    (g ∈ splitMembers worldSize (fun r => r % (spokeCount + 1)) g' ↔
      g % (spokeCount + 1) = g' % (spokeCount + 1))) ∧
  (0 < worldSize →
    splitGroupCount worldSize (fun r => r % (spokeCount + 1)) = spokeCount + 1) ∧
  splitGroupCount worldSize (fun r => r / (spokeCount + 1)) =
    worldSize / (spokeCount + 1)

/-- C1 (amended): when `worldSize` is a multiple of `spokeCount + 1`, the
`make_comms` splits partition the ranks into cylinder groups keyed by
`globalRank / (spokeCount+1)`, each of exactly `spokeCount + 1` members in
ascending rank order with the hub at position `0`, and role groups keyed by
`globalRank % (spokeCount+1)`; every rank is in exactly one group of each
kind.  The number of role groups is `spokeCount + 1` (not
`worldSize / (spokeCount+1)` as claimed; that is the number of cylinder
groups). -/
theorem make_comms_partition (spokeCount worldSize : Nat)
    (hdiv : worldSize % (spokeCount + 1) = 0) :
    makeCommsPartitionProp spokeCount worldSize := by
  have hk : 0 < spokeCount + 1 := Nat.succ_pos _
  refine ⟨?_, ?_, ?_, ?_⟩
  · intro g hg
    have heq := splitMembers_div_eq (spokeCount + 1) worldSize g hk hdiv hg
    refine ⟨heq, ?_, ?_, ?_⟩
    · rw [heq, List.length_range']
    · exact List.Pairwise.sublist (List.filter_sublist _)
        (List.pairwise_lt_range _)
    · refine ⟨g / (spokeCount + 1) * (spokeCount + 1), ?_, ?_⟩
      · rw [heq, List.range'_succ]
        rfl
      · exact Nat.mul_mod_left _ _
  · intro g g' hg hg'
    constructor
    · rw [mem_splitMembers]
      constructor
      · rintro ⟨_, h⟩
        exact h
      · intro h
        exact ⟨hg, h⟩
    · rw [mem_splitMembers]
      constructor
      · rintro ⟨_, h⟩
        exact h
      · intro h
        exact ⟨hg, h⟩
  · intro h0
    rw [splitGroupCount, image_mod_range worldSize (spokeCount + 1) hk hdiv h0,
      Finset.card_range]
  · rw [splitGroupCount, image_div_range worldSize (spokeCount + 1) hk hdiv,
      Finset.card_range]

/-- C1 counterexample: with `spokeCount = 1` and `worldSize = 6` (a valid
configuration, `6 % 2 = 0`) the number of role-groups is `2 = spokeCount+1`,
not `worldSize / (spokeCount+1) = 3` as the claim states. -/
theorem make_comms_role_count_cex :
    6 % (1 + 1) = 0 ∧
      splitGroupCount 6 (fun r => r % (1 + 1)) ≠ 6 / (1 + 1) := by
  constructor
  · rfl
  · decide

/-- Witness instantiating `make_comms_partition` at `spokeCount = 2`,
`worldSize = 6`. -/
theorem make_comms_partition_witness :
    6 % (2 + 1) = 0 ∧ makeCommsPartitionProp 2 6 :=
  ⟨by decide, make_comms_partition 2 6 (by decide)⟩

/-! ## spin_the_wheel structure lemmas -/

theorem getKwargs_ok_iff (d : Dict) (k : String) (kw : List (String × IVal)) :
    getKwargs d k = .ok kw ↔ dget d k = some (.kwargs kw) := by
  rw [getKwargs]
  cases h : dget d k with
  | none => simp
  | some v => cases v <;> simp

theorem validateSpokes_ok (spokes : List Dict) (l : List Dict)
    (h : validateSpokes spokes = .ok l) :
    l = spokes.map spokeEnsured ∧
      ∀ sd ∈ spokes, dcontains sd "spoke_class" = true ∧
        dcontains sd "opt_class" = true := by
  induction spokes generalizing l with
  | nil =>
    rw [validateSpokes] at h
    cases h
    simp
  | cons sd rest ih =>
    rw [validateSpokes] at h
    split at h
    · cases h
    · split at h
      · cases h
      · rename_i h1 h2
        cases hrec : validateSpokes rest with
        | error e => rw [hrec] at h; cases h
        | ok rest1 =>
          rw [hrec] at h
          cases h
          obtain ⟨hl, hall⟩ := ih rest1 hrec
          refine ⟨by rw [hl]; rfl, ?_⟩
          intro x hx
          rcases List.mem_cons.mp hx with hx | hx
          · subst hx
            constructor
            · cases hb : dcontains x "spoke_class"
              · exact absurd hb h1
              · rfl
            · cases hb : dcontains x "opt_class"
              · exact absurd hb h2
              · rfl
          · exact hall x hx

theorem validateSpokes_err (spokes : List Dict)
    (h : ∃ sd ∈ spokes, dcontains sd "spoke_class" = false ∨
      dcontains sd "opt_class" = false) :
    ∃ e, validateSpokes spokes = .error e := by
  induction spokes with
  | nil => simp at h
  | cons sd rest ih =>
    rw [validateSpokes]
    split
    · exact ⟨_, rfl⟩
    · split
      · exact ⟨_, rfl⟩
      · rename_i h1 h2
        have hrest : ∃ x ∈ rest, dcontains x "spoke_class" = false ∨
            dcontains x "opt_class" = false := by
          obtain ⟨x, hx, hor⟩ := h
          rcases List.mem_cons.mp hx with hx | hx
          · subst hx
            rcases hor with hor | hor
            · exact absurd hor h1
            · exact absurd hor h2
          · exact ⟨x, hx, hor⟩
        obtain ⟨e, he⟩ := ih hrest
        rw [he]
        exact ⟨e, rfl⟩

theorem spin_ok_elim (hub : Dict) (spokes : List Dict) (ws g : Nat)
    (effs : List Effect) (out : SpinOutcome)
    (h : spin_the_wheel hub spokes ws g = (effs, .ok out)) :
    dcontains hub "hub_class" = true ∧ dcontains hub "opt_class" = true ∧
    ws % (spokes.length + 1) = 0 ∧
    effs = [Effect.commSplit, Effect.commSplit] ∧
    spinDispatch (hubEnsured hub) (spokes.map spokeEnsured)
      (commSplit ws (fun r => r / (spokes.length + 1)) g)
      (commSplit ws (fun r => r % (spokes.length + 1)) g) = .ok out := by
  rw [spin_the_wheel] at h
  split at h
  · cases h
  · split at h
    · cases h
    · rename_i h1 h2
      cases hval : validateSpokes spokes with
      | error e => rw [hval] at h; cases h
      | ok spokes1 =>
        rw [hval] at h
        obtain ⟨hl, _⟩ := validateSpokes_ok spokes spokes1 hval
        subst hl
        cases hmk : make_comms spokes.length ws g with
        | mk effs1 res =>
          rw [hmk] at h
          cases res with
          | error e => simp at h
          | ok comms =>
            rw [make_comms] at hmk
            split at hmk
            · simp at hmk
            · rename_i hmod
              simp only [Prod.mk.injEq] at hmk
              obtain ⟨hef, hcm⟩ := hmk
              simp only [Prod.mk.injEq] at h
              obtain ⟨he2, hd⟩ := h
              refine ⟨?_, ?_, by omega, by rw [← he2, ← hef], ?_⟩
              · cases hb : dcontains hub "hub_class"
                · exact absurd hb h1
                · rfl
              · cases hb : dcontains hub "opt_class"
                · exact absurd hb h2
                · rfl
              · injection hcm with hcm2
                rw [← hcm2] at hd
                simpa using hd

theorem spinDispatch_ok_cases (hub1 : Dict) (spokes1 : List Dict)
    (ic ra : Comm) (out : SpinOutcome)
    (h : spinDispatch hub1 spokes1 ic ra = .ok out) :
    (ic.rankOf = 0 ∧ ∃ kw, dget hub1 "opt_kwargs" = some (.kwargs kw) ∧
      out = hubOutcome hub1 spokes1 ra kw) ∨
    (ic.rankOf ≠ 0 ∧ ∃ kw,
      dget (spokes1.getD (ic.rankOf - 1) []) "opt_kwargs" =
        some (.kwargs kw) ∧
      out = spokeOutcome hub1 spokes1 ic.rankOf ra kw) := by
  rw [spinDispatch] at h
  split at h
  · rename_i hr
    cases hkw : getKwargs hub1 "opt_kwargs" with
    | error e => rw [hkw] at h; cases h
    | ok kw =>
      rw [hkw] at h
      cases h
      exact .inl ⟨hr, kw, (getKwargs_ok_iff _ _ _).mp hkw, rfl⟩
  · rename_i hr
    cases hkw : getKwargs (spokes1.getD (ic.rankOf - 1) []) "opt_kwargs" with
    | error e => rw [hkw] at h; cases h
    | ok kw =>
      rw [hkw] at h
      cases h
      exact .inr ⟨hr, kw, (getKwargs_ok_iff _ _ _).mp hkw, rfl⟩

/-! ## C2: the lifecycle protocol -/

/-- The temporal properties claimed of one rank's lifecycle trace: the six
all-rank operations occur exactly once each and in the order `make_windows`,
`main`, `finalize`, `Barrier`, `hub_finalize`, `free_windows` (so in
particular `free_windows` comes only after the full-world barrier);
`setup_hub` and `send_terminate` occur exactly once on the rank at cylinder
position 0 and never elsewhere; and on that rank `send_terminate` falls
strictly between `main` and `finalize`. -/
def lifecycleProp (tr : List Event) (rank_inter : Nat) : Prop :=
  [Event.makeWindows, Event.mainCall, Event.finalizeCall, Event.barrier,
    Event.hubFinalize, Event.freeWindows].Sublist tr ∧
  tr.count Event.makeWindows = 1 ∧
  tr.count Event.mainCall = 1 ∧
  tr.count Event.finalizeCall = 1 ∧
  tr.count Event.barrier = 1 ∧
  tr.count Event.hubFinalize = 1 ∧
  tr.count Event.freeWindows = 1 ∧
  tr.count Event.setupHub = (if rank_inter = 0 then 1 else 0) ∧
  tr.count Event.sendTerminate = (if rank_inter = 0 then 1 else 0) ∧
  (rank_inter = 0 →
    [Event.mainCall, Event.sendTerminate, Event.finalizeCall].Sublist tr)

theorem lifecycle_prop (r : Nat) : lifecycleProp (lifecycle r) r := by
  by_cases h : r = 0
  · subst h
    rw [lifecycleProp]
    decide
  · rw [lifecycleProp, lifecycle]
    simp only [if_neg h]
    refine ⟨by decide, by decide, by decide, by decide, by decide, by decide,
      by decide, by decide, by decide, fun hr => absurd hr h⟩

/-- C2 (confirmed): on every rank whose `spin_the_wheel` call returns, the
executed trace is exactly the lifecycle sequence of its cylinder position:
`make_windows`, `main`, `finalize`, full-world barrier, `hub_finalize`,
`free_windows` in order on every rank, with `setup_hub` and `send_terminate`
executed exactly once and only at cylinder position 0, `send_terminate`
strictly after `main` and before `finalize`, and `free_windows` only after
the barrier. -/
theorem spin_lifecycle (hub : Dict) (spokes : List Dict) (ws g : Nat)
    (effs : List Effect) (out : SpinOutcome)
    (h : spin_the_wheel hub spokes ws g = (effs, .ok out)) :
    out.trace = lifecycle out.rankInter ∧
      lifecycleProp out.trace out.rankInter := by
  obtain ⟨_, _, _, _, hd⟩ := spin_ok_elim hub spokes ws g effs out h
  rcases spinDispatch_ok_cases _ _ _ _ _ hd with
    ⟨hr, kw, hkw, hout⟩ | ⟨hr, kw, hkw, hout⟩
  · subst hout
    exact ⟨rfl, lifecycle_prop 0⟩
  · subst hout
    exact ⟨rfl, lifecycle_prop _⟩

/-- A hub specification with the two required keys (used to instantiate the
spin_the_wheel theorems at concrete inputs). -/
def hubW : Dict := [("hub_class", OVal.obj 1), ("opt_class", OVal.obj 2)]

/-- A spoke specification with the two required keys and a pre-existing
keyword dictionary. -/
def spokeW : Dict :=
  [("spoke_class", OVal.obj 3), ("opt_class", OVal.obj 4),
   ("opt_kwargs", OVal.kwargs [("x", IVal.box 9)])]

/-- The outcome of `spin_the_wheel` on global rank 0 of a 2-process world
with one spoke specification. -/
def outW0 : SpinOutcome :=
  (spin_the_wheel hubW [spokeW] 2 0).2.toOption.getD default

/-- The outcome of `spin_the_wheel` on global rank 1 of a 2-process world
with one spoke specification. -/
def outW1 : SpinOutcome :=
  (spin_the_wheel hubW [spokeW] 2 1).2.toOption.getD default

/-- Witness instantiating `spin_lifecycle` on the concrete hub rank 0 of a
2-process world. -/
theorem spin_lifecycle_witness :
    outW0.trace = lifecycle outW0.rankInter ∧
      lifecycleProp outW0.trace outW0.rankInter :=
  spin_lifecycle hubW [spokeW] 2 0 [Effect.commSplit, Effect.commSplit] outW0
    (by rfl)

/-! ## C6: eager configuration errors -/

/-- C6 (confirmed): `spin_the_wheel` fails with a configuration error and
performs no communicator split whenever `hub_dict` lacks `hub_class` or
`opt_class` or any spoke dict lacks `spoke_class` or `opt_class`; and
`make_comms` fails before performing any split, with a message reporting
both the required multiple `spokeCount+1` and the actual process count,
whenever the world size is not a multiple of `spokeCount+1`. -/
theorem config_errors :
    (∀ (hub : Dict) (spokes : List Dict) (ws g : Nat),
      (dcontains hub "hub_class" = false ∨ dcontains hub "opt_class" = false ∨
        ∃ sd ∈ spokes, dcontains sd "spoke_class" = false ∨
          dcontains sd "opt_class" = false) →
      ∃ e, spin_the_wheel hub spokes ws g = ([], .error e)) ∧
    (∀ (n_spokes worldSize g : Nat), worldSize % (n_spokes + 1) ≠ 0 →
      make_comms n_spokes worldSize g =
        ([], .error (.runtimeError ("Need a multiple of " ++
          toString (n_spokes + 1) ++ " processes (got " ++
          toString worldSize ++ ")")))) := by
  constructor
  · intro hub spokes ws g hmiss
    rw [spin_the_wheel]
    by_cases h1 : dcontains hub "hub_class" = false
    · rw [if_pos h1]
      exact ⟨_, rfl⟩
    · rw [if_neg h1]
      by_cases h2 : dcontains hub "opt_class" = false
      · rw [if_pos h2]
        exact ⟨_, rfl⟩
      · rw [if_neg h2]
        have hsp : ∃ sd ∈ spokes, dcontains sd "spoke_class" = false ∨
            dcontains sd "opt_class" = false := by
          rcases hmiss with hm | hm | hm
          · exact absurd hm h1
          · exact absurd hm h2
          · exact hm
        obtain ⟨e, he⟩ := validateSpokes_err spokes hsp
        rw [he]
        exact ⟨e, rfl⟩
  · intro n ws g hmod
    simp only [make_comms]
    rw [if_pos hmod]

/-- Witness instantiating `config_errors`: an empty hub dict (missing
`hub_class`) fails before any split, and a world of 3 processes with one
spoke (group size 2) fails with the message naming both numbers. -/
theorem config_errors_witness :
    (∃ e, spin_the_wheel [] [] 2 0 = ([], .error e)) ∧
      make_comms 1 3 0 = ([], .error (.runtimeError ("Need a multiple of " ++
        toString (1 + 1) ++ " processes (got " ++ toString 3 ++ ")"))) :=
  ⟨config_errors.1 [] [] 2 0 (Or.inl (by rfl)),
   config_errors.2 1 3 0 (by decide)⟩

/-! ## C5: role selection and return value -/

theorem getD_map_lt (l : List α) (f : α → β) (i : Nat) (h : i < l.length)
    (d : α) (d' : β) : (l.map f).getD i d' = f (l.getD i d) := by
  rw [List.getD_eq_getElem _ _ (by simpa using h), List.getD_eq_getElem _ _ h,
    List.getElem_map]

theorem getD_set_lt (l : List α) (i : Nat) (a : α) (h : i < l.length)
    (d : α) : (l.set i a).getD i d = a := by
  rw [List.getD_eq_getElem _ _ (by simpa using h), List.getElem_set_self]

theorem dget_hubEnsured_class (hub : Dict) (k : String)
    (h1 : k ≠ "hub_kwargs") (h2 : k ≠ "opt_kwargs") :
    dget (hubEnsured hub) k = dget hub k := by
  rw [hubEnsured, dget_ensureKey_ne _ _ _ _ h2, dget_ensureKey_ne _ _ _ _ h1]

theorem dget_spokeEnsured_class (sd : Dict) (k : String)
    (h1 : k ≠ "spoke_kwargs") (h2 : k ≠ "opt_kwargs") :
    dget (spokeEnsured sd) k = dget sd k := by
  rw [spokeEnsured, dget_ensureKey_ne _ _ _ _ h2, dget_ensureKey_ne _ _ _ _ h1]

/-- The property claimed of the role dispatch: the rank's cylinder position
is `g % (spokeCount+1)`; position 0 is the hub, configured from `hub_dict`
and constructed with the full (mutated) spoke list, returning the hub dict;
position `r > 0` is spoke `r`, configured from `list_of_spoke_dict[r-1]` and
constructed without the spoke list, returning that spoke dict. -/
def spinRoleProp (hub : Dict) (spokes : List Dict) (g : Nat)
    (out : SpinOutcome) : Prop :=
  out.rankInter = g % (spokes.length + 1) ∧
  (g % (spokes.length + 1) = 0 →
    out.spArgs.spokeList = some out.spokeDictsFinal ∧
    out.spArgs.spClass = dget hub "hub_class" ∧
    out.optArgs.optClass = dget hub "opt_class" ∧
    out.retOptDict = out.hubDictFinal) ∧
  (0 < g % (spokes.length + 1) →
    out.spArgs.spokeList = none ∧
    out.spArgs.spClass =
      dget (spokes.getD (g % (spokes.length + 1) - 1) []) "spoke_class" ∧
    out.optArgs.optClass =
      dget (spokes.getD (g % (spokes.length + 1) - 1) []) "opt_class" ∧
    out.retOptDict =
      out.spokeDictsFinal.getD (g % (spokes.length + 1) - 1) [])

/-- C5 (confirmed): on every rank whose `spin_the_wheel` call returns, the
cylinder position `r = g % (spokeCount+1)` selects the role: `r = 0` is the
hub, configured from `hub_dict` and constructed with the full spoke-spec
list, and the returned dictionary is the hub dict; `r > 0` is spoke `r`,
configured from `list_of_spoke_dict[r-1]`, constructed without the spoke
list, and the returned dictionary is that spoke dict. -/
theorem spin_role_selection (hub : Dict) (spokes : List Dict) (ws g : Nat)
    (effs : List Effect) (out : SpinOutcome) (hg : g < ws)
    (h : spin_the_wheel hub spokes ws g = (effs, .ok out)) :
    spinRoleProp hub spokes g out := by
  obtain ⟨hc1, hc2, hmod, _, hd⟩ := spin_ok_elim hub spokes ws g effs out h
  have hk : 0 < spokes.length + 1 := Nat.succ_pos _
  have hrank :
      (commSplit ws (fun r => r / (spokes.length + 1)) g).rankOf =
        g % (spokes.length + 1) :=
    splitMembers_div_indexOf (spokes.length + 1) ws g hk hmod hg
  rcases spinDispatch_ok_cases _ _ _ _ _ hd with
    ⟨hr, kw, hkw, hout⟩ | ⟨hr, kw, hkw, hout⟩
  · have hg0 : g % (spokes.length + 1) = 0 := by rw [← hrank]; exact hr
    subst hout
    refine ⟨by simpa [hubOutcome] using hg0.symm, ?_, ?_⟩
    · intro _
      exact ⟨rfl, dget_hubEnsured_class hub _ (by decide) (by decide),
        dget_hubEnsured_class hub _ (by decide) (by decide), rfl⟩
    · intro hpos
      omega
  · have hgpos : 0 < g % (spokes.length + 1) := by
      rw [← hrank]
      exact Nat.pos_of_ne_zero hr
    have hlt : g % (spokes.length + 1) < spokes.length + 1 := Nat.mod_lt _ hk
    have hidx : g % (spokes.length + 1) - 1 < spokes.length := by omega
    subst hout
    rw [spokeOutcome]
    rw [hrank]
    refine ⟨rfl, ?_, ?_⟩
    · intro h0
      omega
    · intro _
      have hsd : (spokes.map spokeEnsured).getD
          (g % (spokes.length + 1) - 1) [] =
          spokeEnsured (spokes.getD (g % (spokes.length + 1) - 1) []) :=
        getD_map_lt spokes spokeEnsured _ hidx [] []
      refine ⟨rfl, ?_, ?_, ?_⟩
      · show dget ((spokes.map spokeEnsured).getD
            (g % (spokes.length + 1) - 1) []) "spoke_class" = _
        rw [hsd, dget_spokeEnsured_class _ _ (by decide) (by decide)]
      · show dget ((spokes.map spokeEnsured).getD
            (g % (spokes.length + 1) - 1) []) "opt_class" = _
        rw [hsd, dget_spokeEnsured_class _ _ (by decide) (by decide)]
      · rw [getD_set_lt]
        simpa using hidx

/-- Witness instantiating `spin_role_selection` on both ranks of a concrete
2-process world (hub at global rank 0, spoke 1 at global rank 1). -/
theorem spin_role_selection_witness :
    spinRoleProp hubW [spokeW] 0 outW0 ∧ spinRoleProp hubW [spokeW] 1 outW1 :=
  ⟨spin_role_selection hubW [spokeW] 2 0 [Effect.commSplit, Effect.commSplit]
      outW0 (by decide) (by rfl),
   spin_role_selection hubW [spokeW] 2 1 [Effect.commSplit, Effect.commSplit]
      outW1 (by decide) (by rfl)⟩

/-! ## C10: in-place mutation of the caller's dictionaries -/

/-- The keyword dictionary stored under an optional dictionary value
(empty when the key was absent). -/
def kwOf : Option OVal → List (String × IVal)
  | some (.kwargs d) => d
  | _ => []

theorem kwOf_of_getD (o : Option OVal) (kw : List (String × IVal))
    (h : o.getD (.kwargs []) = .kwargs kw) : kwOf o = kw := by
  cases o with
  | none =>
    simp only [Option.getD_none, OVal.kwargs.injEq] at h
    simp [kwOf, ← h]
  | some v =>
    cases v with
    | obj i => simp at h
    | kwargs d =>
      simp only [Option.getD_some, OVal.kwargs.injEq] at h
      simp [kwOf, h]

theorem dget_hubEnsured_hub_kwargs (hub : Dict) :
    dget (hubEnsured hub) "hub_kwargs" =
      some ((dget hub "hub_kwargs").getD (.kwargs [])) := by
  rw [hubEnsured, dget_ensureKey_ne _ _ _ _ (by decide), dget_ensureKey_self]

theorem dget_hubEnsured_opt_kwargs (hub : Dict) :
    dget (hubEnsured hub) "opt_kwargs" =
      some ((dget hub "opt_kwargs").getD (.kwargs [])) := by
  rw [hubEnsured, dget_ensureKey_self, dget_ensureKey_ne _ _ _ _ (by decide)]

theorem dget_spokeEnsured_spoke_kwargs (sd : Dict) :
    dget (spokeEnsured sd) "spoke_kwargs" =
      some ((dget sd "spoke_kwargs").getD (.kwargs [])) := by
  rw [spokeEnsured, dget_ensureKey_ne _ _ _ _ (by decide), dget_ensureKey_self]

theorem dget_spokeEnsured_opt_kwargs (sd : Dict) :
    dget (spokeEnsured sd) "opt_kwargs" =
      some ((dget sd "opt_kwargs").getD (.kwargs [])) := by
  rw [spokeEnsured, dget_ensureKey_self, dget_ensureKey_ne _ _ _ _ (by decide)]

theorem getD_set_ne (l : List α) (i j : Nat) (a : α) (h : i ≠ j)
    (hj : j < l.length) (d : α) : (l.set i a).getD j d = l.getD j d := by
  rw [List.getD_eq_getElem _ _ (by simpa using hj),
    List.getD_eq_getElem _ _ hj, List.getElem_set_ne h]

/-- The property claimed of the in-place mutations: missing `hub_kwargs` /
`spoke_kwargs` / `opt_kwargs` keys are filled with empty dictionaries
(present ones are kept), the selected role's `opt_kwargs` additionally
receives `"mpicomm" = intracomm` before the optimization object is built
(whose keyword vector therefore contains it), and every other key of every
dictionary is unchanged. -/
def spinMutationProp (hub : Dict) (spokes : List Dict) (ws g : Nat)
    (out : SpinOutcome) : Prop :=
  dget out.hubDictFinal "hub_kwargs" =
    some ((dget hub "hub_kwargs").getD (.kwargs [])) ∧
  (∀ i, i < spokes.length →
    dget (out.spokeDictsFinal.getD i []) "spoke_kwargs" =
      some ((dget (spokes.getD i []) "spoke_kwargs").getD (.kwargs []))) ∧
  (g % (spokes.length + 1) = 0 →
    dget out.hubDictFinal "opt_kwargs" =
      some (.kwargs (dset (kwOf (dget hub "opt_kwargs")) "mpicomm"
        (.comm (splitMembers ws (fun x => x % (spokes.length + 1)) g)))) ∧
    ∀ i, i < spokes.length →
      dget (out.spokeDictsFinal.getD i []) "opt_kwargs" =
        some ((dget (spokes.getD i []) "opt_kwargs").getD (.kwargs []))) ∧
  (0 < g % (spokes.length + 1) →
    dget out.hubDictFinal "opt_kwargs" =
      some ((dget hub "opt_kwargs").getD (.kwargs [])) ∧
    dget (out.spokeDictsFinal.getD (g % (spokes.length + 1) - 1) [])
        "opt_kwargs" =
      some (.kwargs (dset
        (kwOf (dget (spokes.getD (g % (spokes.length + 1) - 1) [])
          "opt_kwargs")) "mpicomm"
        (.comm (splitMembers ws (fun x => x % (spokes.length + 1)) g)))) ∧
    ∀ i, i < spokes.length → i ≠ g % (spokes.length + 1) - 1 →
      dget (out.spokeDictsFinal.getD i []) "opt_kwargs" =
        some ((dget (spokes.getD i []) "opt_kwargs").getD (.kwargs []))) ∧
  dget out.optArgs.kwargs "mpicomm" =
    some (.comm (splitMembers ws (fun x => x % (spokes.length + 1)) g)) ∧
  (∀ k, k ≠ "hub_kwargs" → k ≠ "opt_kwargs" →
    dget out.hubDictFinal k = dget hub k) ∧
  (∀ i, i < spokes.length → ∀ k, k ≠ "spoke_kwargs" → k ≠ "opt_kwargs" →
    dget (out.spokeDictsFinal.getD i []) k = dget (spokes.getD i []) k) ∧
  (∀ k, k ≠ "mpicomm" →
    dget out.optArgs.kwargs k =
      dget (kwOf (dget (if g % (spokes.length + 1) = 0 then hub
        else spokes.getD (g % (spokes.length + 1) - 1) []) "opt_kwargs")) k)

/-- C10 (confirmed): `spin_the_wheel` mutates its input dictionaries in
place: missing `hub_kwargs` / `spoke_kwargs` / `opt_kwargs` keys are filled
with empty dicts, the selected role's `opt_kwargs` has `"mpicomm"` set to
the derived intra communicator before the optimization object is built, and
all other keys are left unchanged. -/
theorem spin_inplace_mutation (hub : Dict) (spokes : List Dict) (ws g : Nat)
    (effs : List Effect) (out : SpinOutcome) (hg : g < ws)
    (h : spin_the_wheel hub spokes ws g = (effs, .ok out)) :
    spinMutationProp hub spokes ws g out := by
  obtain ⟨hc1, hc2, hmod, _, hd⟩ := spin_ok_elim hub spokes ws g effs out h
  have hk : 0 < spokes.length + 1 := Nat.succ_pos _
  have hrank :
      (commSplit ws (fun r => r / (spokes.length + 1)) g).rankOf =
        g % (spokes.length + 1) :=
    splitMembers_div_indexOf (spokes.length + 1) ws g hk hmod hg
  rcases spinDispatch_ok_cases _ _ _ _ _ hd with
    ⟨hr, kw, hkw, hout⟩ | ⟨hr, kw, hkw, hout⟩
  · have hg0 : g % (spokes.length + 1) = 0 := by rw [← hrank]; exact hr
    have hkw' : kwOf (dget hub "opt_kwargs") = kw := by
      apply kwOf_of_getD
      rw [dget_hubEnsured_opt_kwargs hub] at hkw
      exact Option.some.inj hkw
    subst hout
    rw [hubOutcome]
    refine ⟨?_, ?_, ?_, ?_, ?_, ?_, ?_, ?_⟩
    · rw [dget_dset_ne _ _ _ _ (by decide), dget_hubEnsured_hub_kwargs]
    · intro i hi
      rw [getD_map_lt spokes spokeEnsured i hi [] [],
        dget_spokeEnsured_spoke_kwargs]
    · intro _
      refine ⟨?_, ?_⟩
      · rw [dget_dset_self, hkw']
        rfl
      · intro i hi
        rw [getD_map_lt spokes spokeEnsured i hi [] [],
          dget_spokeEnsured_opt_kwargs]
    · intro hpos
      omega
    · rw [dget_dset_self]
      rfl
    · intro k hk1 hk2
      rw [dget_dset_ne _ _ _ _ hk2, dget_hubEnsured_class hub k hk1 hk2]
    · intro i hi k hk1 hk2
      rw [getD_map_lt spokes spokeEnsured i hi [] [],
        dget_spokeEnsured_class _ _ hk1 hk2]
    · intro k hne
      rw [if_pos hg0, hkw', dget_dset_ne _ _ _ _ hne]
  · have hgpos : 0 < g % (spokes.length + 1) := by
      rw [← hrank]
      exact Nat.pos_of_ne_zero hr
    have hlt : g % (spokes.length + 1) < spokes.length + 1 := Nat.mod_lt _ hk
    have hidx : g % (spokes.length + 1) - 1 < spokes.length := by omega
    have hsd : (spokes.map spokeEnsured).getD
        (g % (spokes.length + 1) - 1) [] =
        spokeEnsured (spokes.getD (g % (spokes.length + 1) - 1) []) :=
      getD_map_lt spokes spokeEnsured _ hidx [] []
    have hkw' :
        kwOf (dget (spokes.getD (g % (spokes.length + 1) - 1) [])
          "opt_kwargs") = kw := by
      apply kwOf_of_getD
      rw [hrank, hsd, dget_spokeEnsured_opt_kwargs] at hkw
      exact Option.some.inj hkw
    subst hout
    rw [spokeOutcome, hrank, hsd]
    have hmaplen : (g % (spokes.length + 1) - 1) < (spokes.map spokeEnsured).length := by
      simpa using hidx
    refine ⟨?_, ?_, ?_, ?_, ?_, ?_, ?_, ?_⟩
    · exact dget_hubEnsured_hub_kwargs hub
    · intro i hi
      by_cases hieq : i = g % (spokes.length + 1) - 1
      · subst hieq
        rw [getD_set_lt _ _ _ hmaplen, dget_dset_ne _ _ _ _ (by decide),
          dget_spokeEnsured_spoke_kwargs]
      · rw [getD_set_ne _ _ _ _ (fun hh => hieq hh.symm) (by simpa using hi),
          getD_map_lt spokes spokeEnsured i hi [] [],
          dget_spokeEnsured_spoke_kwargs]
    · intro h0
      omega
    · intro _
      refine ⟨dget_hubEnsured_opt_kwargs hub, ?_, ?_⟩
      · rw [getD_set_lt _ _ _ hmaplen, dget_dset_self, hkw']
        rfl
      · intro i hi hine
        rw [getD_set_ne _ _ _ _ (fun hh => hine hh.symm) (by simpa using hi),
          getD_map_lt spokes spokeEnsured i hi [] [],
          dget_spokeEnsured_opt_kwargs]
    · rw [dget_dset_self]
      rfl
    · intro k hk1 hk2
      exact dget_hubEnsured_class hub k hk1 hk2
    · intro i hi k hk1 hk2
      by_cases hieq : i = g % (spokes.length + 1) - 1
      · subst hieq
        rw [getD_set_lt _ _ _ hmaplen, dget_dset_ne _ _ _ _ hk2,
          dget_spokeEnsured_class _ _ hk1 hk2]
      · rw [getD_set_ne _ _ _ _ (fun hh => hieq hh.symm) (by simpa using hi),
          getD_map_lt spokes spokeEnsured i hi [] [],
          dget_spokeEnsured_class _ _ hk1 hk2]
    · intro k hne
      rw [if_neg (by omega), hkw', dget_dset_ne _ _ _ _ hne]

/-- Witness instantiating `spin_inplace_mutation` on both ranks of a
concrete 2-process world; `spokeW` carries a pre-existing `opt_kwargs`,
`hubW` does not. -/
theorem spin_inplace_mutation_witness :
    spinMutationProp hubW [spokeW] 2 0 outW0 ∧
      spinMutationProp hubW [spokeW] 2 1 outW1 :=
  ⟨spin_inplace_mutation hubW [spokeW] 2 0
      [Effect.commSplit, Effect.commSplit] outW0 (by decide) (by rfl),
   spin_inplace_mutation hubW [spokeW] 2 1
      [Effect.commSplit, Effect.commSplit] outW1 (by decide) (by rfl)⟩

/-! ## C8: the flat two-stage partition -/

theorem idNames_length (n : Nat) : (idNames n).length = n := by
  simp [idNames]

/-- C8 (code bug): the flat branch of `scens_to_ranks` does not always
cover the scenario indices.  At the claim's own example,
`flatPartition(6, 3)`, the three slices cover indices 0-5 as claimed; but
at `scen_count = 64, n_proc = 49` the double `avg = 64 / 49` rounds below
the exact ratio and `int(49 * avg)` evaluates to 63 (the exact product of
the rounded `avg` with 49 is `64 - 23 * 2^(-52)`, which rounds to
`64 - 2^(-47)`), so although `64 ≥ 49` makes the call return normally, its
49 slices concatenate to the indices 0-62 only: scenario index 63 is
assigned to no rank. -/
theorem scens_to_ranks_flat_bug :
    scens_to_ranks 6 3 0 none = .ok ([[0, 1], [2, 3], [4, 5]], none) ∧
    scens_to_ranks 64 49 0 none = .ok (flatSlices 64 49, none) ∧
    (flatSlices 64 49).length = 49 ∧
    (flatSlices 64 49).flatten = List.range 63 ∧
    63 ∉ (flatSlices 64 49).flatten := by
  refine ⟨by rfl, by rfl, by rfl, by decide, by decide⟩

/-! ## C9: the dead multi-stage path of scens_to_ranks -/

/-- C9 (amended): with `BFs` given and `scen_count ≥ n_proc`, the call never
returns normally.  When the `_ScenTree` constructor's assertions pass
(`scen_count == prod(BFs)` and `len(BFs) > 1`) the undefined method call
`tree.scen_name_to_rank` raises an `AttributeError`; otherwise an
`AssertionError` is raised first. -/
theorem scens_to_ranks_multistage (S P r : Nat) (bfs : List Nat)
    (h : P ≤ S) :
    (∃ e, scens_to_ranks S P r (some bfs) = .error e) ∧
    (S = bfs.prod → 1 < bfs.length →
      scens_to_ranks S P r (some bfs) =
        .error (.attributeError "scen_name_to_rank")) := by
  have hnlt : ¬ (S < P) := by omega
  constructor
  · rw [scens_to_ranks, if_neg hnlt]
    cases hmk : mkScenTree bfs (idNames S) with
    | error e => exact ⟨e, rfl⟩
    | ok t => exact ⟨.attributeError "scen_name_to_rank", rfl⟩
  · intro hS hlen
    rw [scens_to_ranks, if_neg hnlt]
    have ht : ∃ t, mkScenTree bfs (idNames S) = .ok t := by
      rw [mkScenTree, if_neg (by rw [idNames_length]; omega),
        if_neg (by simpa using hlen)]
      exact ⟨_, rfl⟩
    obtain ⟨t, htt⟩ := ht
    rw [htt]

/-- C9 counterexample: at `scen_count = 4`, `n_proc = 2`, `BFs = [3]` (a call
with `BFs` given and `scen_count ≥ n_proc`) the raised error is the
`_ScenTree` constructor's `AssertionError`, not an `AttributeError` — the
claim's "always raises an attribute error" fails. -/
theorem scens_to_ranks_attr_cex :
    (2 : Nat) ≤ 4 ∧
      scens_to_ranks 4 2 0 (some [3]) = .error .assertionError ∧
      PyError.assertionError ≠ .attributeError "scen_name_to_rank" := by
  refine ⟨by decide, by rfl, by decide⟩

/-- Witness instantiating `scens_to_ranks_multistage` on a constructible
tree (`scen_count = 4 = prod [2,2]`). -/
theorem scens_to_ranks_multistage_witness :
    (2 : Nat) ≤ 4 ∧
      scens_to_ranks 4 2 0 (some [2, 2]) =
        .error (.attributeError "scen_name_to_rank") :=
  ⟨by decide,
   (scens_to_ranks_multistage 4 2 0 [2, 2] (by decide)).2 (by decide)
     (by decide)⟩

/-! ## C3: the child-range defect of _TreeNode -/

/-- Whether a list of inclusive `(first, last)` ranges chains, in order,
exactly from `first` to `last`: the disjoint-ordered-partition property the
specification claims of a node's children. -/
def rangesChain : Int → Int → List (Int × Int) → Bool
  | first, last, [] => first == last + 1
  | first, last, (a, b) :: rest => first == a && rangesChain (b + 1) last rest

/-- Whether a node's children's ranges partition the node's own range, in
order and without gaps or overlaps. -/
def kidsPartitionB (nd : STree) : Bool :=
  rangesChain nd.scenfirst nd.scenlast
    (nd.kids.map (fun c => (c.scenfirst, c.scenlast)))

/-- The eight generated scenario names of a `[2,2,2]` tree. -/
def names8 : List String := idNames 8

/-- The `_ScenTree` built from `BFs = [2,2,2]` and eight scenario names. -/
def tree8 : ScenTree := (mkScenTree [2, 2, 2] names8).toOption.getD default

/-- C3 (code bug): in the tree built from `BFs = [2,2,2]` with eight
scenarios, node `ROOT_1` spans the inclusive range `[4, 7]`, but its children
span `[0, 1]` and `[2, 3]` — `_TreeNode.__init__` passes
`b*numscens // bf` without adding the parent's `scenfirst` (line 545), so
the children's ranges do not partition the parent's range (the root's
children, by contrast, do partition the root's range, because the root
starts at 0). -/
theorem tree_child_ranges_bug :
    mkScenTree [2, 2, 2] names8 = .ok tree8 ∧
    (tree8.rootnode.kids.getD 1 default).name = "ROOT_1" ∧
    (tree8.rootnode.kids.getD 1 default).scenfirst = 4 ∧
    (tree8.rootnode.kids.getD 1 default).scenlast = 7 ∧
    ((tree8.rootnode.kids.getD 1 default).kids.map
      (fun c => (c.scenfirst, c.scenlast))) = [(0, 1), (2, 3)] ∧
    kidsPartitionB tree8.rootnode = true ∧
    kidsPartitionB (tree8.rootnode.kids.getD 1 default) = false :=
  ⟨rfl, rfl, rfl, rfl, rfl, rfl, rfl⟩

/-! ## C7: myrank (in)dependence of scen_names_to_ranks -/

/-- The four generated scenario names of a `[2,2]` tree. -/
def names4 : List String := idNames 4

/-- The `_ScenTree` built from `BFs = [2,2]` and four scenario names. -/
def tree4 : ScenTree := (mkScenTree [2, 2] names4).toOption.getD default

/-- Observe one entry of a `scen_names_to_ranks` result: `none` when the
call failed or the node has no dictionary, `some none` when the node's
dictionary lacks the scenario name, `some (some r)` when it assigns rank
`r`. -/
def snrLookup
    (res : Except PyError
      (RMap × Option (List (List (Int × Int))) × Option (String → Option Nat)))
    (node key : String) : Option (Option Nat) :=
  match res with
  | .ok (rm, _, _) => (rm node).map (fun im => im key)
  | .error _ => none

/-- C7 counterexample: with `n_proc = 1` the result maps every scenario to
`myrank` (line 583), so the assignment differs between `myrank = 0` and
`myrank = 1` on the same `(branchingFactors, scenarioNames, numRanks)`. -/
theorem snr_myrank_dependence_cex :
    snrLookup (scen_names_to_ranks tree4 1 0) "ROOT" "ID0" = some (some 0) ∧
    snrLookup (scen_names_to_ranks tree4 1 1) "ROOT" "ID0" = some (some 1) ∧
    scen_names_to_ranks tree4 1 0 ≠ scen_names_to_ranks tree4 1 1 := by
  refine ⟨rfl, rfl, fun hcontra => ?_⟩
  exact absurd (congrArg (fun res => snrLookup res "ROOT" "ID0") hcontra)
    (by decide)

/-- C7 (amended): for valid ranks `myrank < numRanks` the result of
`scen_names_to_ranks` does not depend on `myrank` (for `numRanks = 1` the
only valid rank is 0; for `numRanks ≠ 1` the parameter is never read), and —
the embedding being a pure function — two calls with identical inputs
trivially coincide. -/
theorem snr_myrank_independent (t : ScenTree) (n_proc m1 m2 : Nat)
    (h1 : m1 < n_proc) (h2 : m2 < n_proc) :
    scen_names_to_ranks t n_proc m1 = scen_names_to_ranks t n_proc m2 := by
  by_cases hn : n_proc = 1
  · subst hn
    have e1 : m1 = 0 := by omega
    have e2 : m2 = 0 := by omega
    rw [e1, e2]
  · rw [scen_names_to_ranks, scen_names_to_ranks, if_neg hn, if_neg hn]

/-- Witness instantiating `snr_myrank_independent` at `numRanks = 2` with
ranks 0 and 1. -/
theorem snr_myrank_independent_witness :
    (0 : Nat) < 2 ∧ (1 : Nat) < 2 ∧
      scen_names_to_ranks tree4 2 0 = scen_names_to_ranks tree4 2 1 :=
  ⟨by decide, by decide,
   snr_myrank_independent tree4 2 0 1 (by decide) (by decide)⟩

/-! ## C4: scenario coverage of scen_names_to_ranks -/

/-- The 64 generated scenario names of a `[1,64]` tree. -/
def names64 : List String := idNames 64

/-- The `_ScenTree` built from `BFs = [1,64]` and 64 scenario names. -/
def tree164 : ScenTree := (mkScenTree [1, 64] names64).toOption.getD default

/-- C4 (code bug): the rank mapping returned by `scen_names_to_ranks` does
not cover each node's scenario range.  In the `[1,64]` tree the single
terminal node `ROOT_0` spans the inclusive range `[0, 63]` and with
`numRanks = 49` the call returns normally ; but the double `avg = 64 / 49`
of line 611 rounds below the exact ratio, `int(49 * avg)` evaluates to 63,
and the slice loop of lines 611-619 therefore stops at relative index 62:
scenario `ID63`, although in the range of both `ROOT_0` and `ROOT`, appears
in neither dictionary, while `ID62` is assigned rank 48 in both.  (The
`numRanks == 1` shortcut of line 583 breaks coverage in the opposite
direction, giving every node every scenario name, and for trees of three or
more stages the child-range defect shown for C3 breaks the ranges
themselves.) -/
theorem snr_float_coverage_bug :
    mkScenTree [1, 64] names64 = .ok tree164 ∧
    tree164.nonleaves.map STree.name = ["ROOT", "ROOT_0"] ∧
    (tree164.rootnode.kids.getD 0 default).scenfirst = 0 ∧
    (tree164.rootnode.kids.getD 0 default).scenlast = 63 ∧
    "ID63" ∈
      ndScenList tree164.ScenNames (tree164.rootnode.kids.getD 0 default) ∧
    snrLookup (scen_names_to_ranks tree164 49 0) "ROOT_0" "ID63" =
      some none ∧
    snrLookup (scen_names_to_ranks tree164 49 0) "ROOT" "ID63" = some none ∧
    snrLookup (scen_names_to_ranks tree164 49 0) "ROOT_0" "ID62" =
      some (some 48) ∧
    snrLookup (scen_names_to_ranks tree164 49 0) "ROOT" "ID62" =
      some (some 48) := by
  refine ⟨by rfl, by rfl, by rfl, by rfl, by decide, by decide, by decide,
    by decide, by decide⟩

end Sputils
